import Mathlib

/-
Verification of the training and splitting orchestration of the
ModelHandRecognition scripts.

The Python sources are embedded shallowly:

* `Training.runFrom` / `Training.trainLoop` embed the epoch loop shared by
  `04_train_mlp.py` (`Trainer.train`, lines 112-190) and
  `05_train_temporal.py` (`MultiModelTrainer.train_model`, lines 105-173):
  per epoch, the validation accuracy is appended to the history; on a strict
  improvement (`val_acc > best_val_acc`) the best metric is updated, the
  counter reset and a checkpoint written; otherwise the counter is
  incremented and the loop breaks once it reaches `patience`.  The opaque
  model evaluation is abstracted into the per-epoch metric stream
  `metrics : Nat -> Rat`; the learning-rate scheduler only adapts the
  learning rate and is absorbed into that abstraction.
* `Collate.collate_sequences` embeds `collate_sequences`
  (`05_train_temporal.py`, lines 45-51) together with torch's
  `pad_sequence`: trailing zero-row padding up to the batch maximum length.
* `Splits.create_splits` embeds `DatasetCleaner.create_splits`
  (`03_create_splits.py`, lines 109-145); the external
  `sklearn.model_selection.train_test_split` is modelled from its documented
  behaviour (a stratified shuffle-and-cut that raises a generic ValueError
  when the least populated class has fewer than 2 members or when the test
  or train fold is smaller than the number of classes), parametrised by the
  permutation the seeded shuffle produces.
* `Harness.run_all` embeds `MultiModelTrainer.run_all`
  (`05_train_temporal.py`, lines 209-284), where the per-model
  train-and-evaluate pipeline is abstracted as an `Except`-valued function:
  the Python body contains no try/except, so an exception propagates.
* `Epoch.accumulate` embeds the per-epoch metric accumulation
  (`04_train_mlp.py` lines 115-134, `05_train_temporal.py` lines 106-128).
-/

namespace Training

/-- Mutable loop state of `Trainer.train` / `train_model`: `best` is
`best_val_acc`, `counter` is `epochs_without_improvement`, `ckpt` the last
written checkpoint `(epoch, val_acc)`, `history` the recorded `val_acc`
values, `earlyStopped` records that the `break` was taken. -/
structure TrainState where
  best : ℚ
  counter : Nat
  ckpt : Option (Nat × ℚ)
  history : List ℚ
  earlyStopped : Bool
deriving Repr, DecidableEq

/-- State before the first epoch: `best_val_acc = 0`,
`epochs_without_improvement = 0`, no checkpoint, empty history. -/
def initState : TrainState := ⟨0, 0, none, [], false⟩

/-- Epoch outcome when `val_acc > best_val_acc` (strict): record the
accuracy, update the best, reset the counter, overwrite the checkpoint with
the current epoch (the epoch index is the number of epochs already
recorded). -/
def improveState (metrics : Nat → ℚ) (st : TrainState) : TrainState :=
  { best := metrics st.history.length, counter := 0,
    ckpt := some (st.history.length, metrics st.history.length),
    history := st.history ++ [metrics st.history.length],
    earlyStopped := false }

/-- Epoch outcome when the accuracy did not improve and the incremented
counter reaches `patience`: the `break` is taken. -/
def breakState (metrics : Nat → ℚ) (st : TrainState) : TrainState :=
  { st with counter := st.counter + 1,
            history := st.history ++ [metrics st.history.length],
            earlyStopped := true }

/-- Epoch outcome when the accuracy did not improve but the counter is still
below `patience`: record and continue. -/
def stallState (metrics : Nat → ℚ) (st : TrainState) : TrainState :=
  { st with counter := st.counter + 1,
            history := st.history ++ [metrics st.history.length],
            earlyStopped := false }

/-- One-for-one embedding of the epoch loop body (`for epoch in
range(epochs)` with the early-stopping `break`).  `fuel` is the number of
epochs still allowed by `range(epochs)`.  A stopped state is returned
unchanged, which mirrors the fact that the Python `break` leaves the loop
for good. -/
def runFrom (metrics : Nat → ℚ) (patience : Nat) : Nat → TrainState → TrainState
  | 0, st => st
  | fuel + 1, st =>
    if st.earlyStopped then st else
    if st.best < metrics st.history.length then
      runFrom metrics patience fuel (improveState metrics st)
    else
      if patience ≤ st.counter + 1 then
        breakState metrics st
      else
        runFrom metrics patience fuel (stallState metrics st)

theorem runFrom_succ_stopped (metrics : Nat → ℚ) (p n : Nat) (st : TrainState)
    (h : st.earlyStopped = true) : runFrom metrics p (n + 1) st = st := by
  rw [runFrom, if_pos h]

theorem runFrom_succ_improve (metrics : Nat → ℚ) (p n : Nat) (st : TrainState)
    (h1 : st.earlyStopped = false)
    (h2 : st.best < metrics st.history.length) :
    runFrom metrics p (n + 1) st =
      runFrom metrics p n (improveState metrics st) := by
  rw [runFrom, if_neg (by rw [h1]; exact Bool.false_ne_true), if_pos h2]

theorem runFrom_succ_break (metrics : Nat → ℚ) (p n : Nat) (st : TrainState)
    (h1 : st.earlyStopped = false)
    (h2 : ¬ st.best < metrics st.history.length)
    (h3 : p ≤ st.counter + 1) :
    runFrom metrics p (n + 1) st = breakState metrics st := by
  rw [runFrom, if_neg (by rw [h1]; exact Bool.false_ne_true), if_neg h2,
    if_pos h3]

theorem runFrom_succ_stall (metrics : Nat → ℚ) (p n : Nat) (st : TrainState)
    (h1 : st.earlyStopped = false)
    (h2 : ¬ st.best < metrics st.history.length)
    (h3 : ¬ p ≤ st.counter + 1) :
    runFrom metrics p (n + 1) st =
      runFrom metrics p n (stallState metrics st) := by
  rw [runFrom, if_neg (by rw [h1]; exact Bool.false_ne_true), if_neg h2,
    if_neg h3]

/-- `Trainer.train(epochs, patience)` observed through the per-epoch
validation-accuracy stream `metrics`. -/
def trainLoop (metrics : Nat → ℚ) (epochs patience : Nat) : TrainState :=
  runFrom metrics patience epochs initState

/-- `foldl max 0`, the running maximum maintained by the loop
(initialised with `best_val_acc = 0`). -/
def histMax (l : List ℚ) : ℚ := l.foldl max 0

theorem le_foldl_max {α : Type} [LinearOrder α] (l : List α) (a : α) :
    a ≤ l.foldl max a := by
  induction l generalizing a with
  | nil => exact le_refl a
  | cons x xs ih => exact le_trans (le_max_left a x) (ih (max a x))

theorem mem_le_foldl_max {α : Type} [LinearOrder α] {l : List α} {x : α}
    (hx : x ∈ l) (a : α) : x ≤ l.foldl max a := by
  induction l generalizing a with
  | nil => cases hx
  | cons y ys ih =>
    rw [List.foldl_cons]
    rcases List.mem_cons.mp hx with h | h
    · subst h
      exact le_trans (le_max_right a x) (le_foldl_max ys (max a x))
    · exact ih h (max a y)

theorem foldl_max_const {α : Type} [LinearOrder α] {l : List α} {a : α}
    (h : ∀ x ∈ l, x ≤ a) : l.foldl max a = a := by
  induction l with
  | nil => rfl
  | cons y ys ih =>
    have hy : y ≤ a := h y (List.mem_cons_self y ys)
    have : max a y = a := max_eq_left hy
    simpa [this] using ih (fun x hx => h x (List.mem_cons_of_mem y hx))

theorem histMax_append (l : List ℚ) (v : ℚ) :
    histMax (l ++ [v]) = max (histMax l) v := by
  simp [histMax, List.foldl_append]

theorem histMax_nonneg (l : List ℚ) : 0 ≤ histMax l := le_foldl_max l 0

theorem le_histMax {l : List ℚ} {x : ℚ} (hx : x ∈ l) : x ≤ histMax l :=
  mem_le_foldl_max hx 0

theorem histMax_mem {l : List ℚ} (hnn : ∀ v ∈ l, 0 ≤ v) (hne : l ≠ []) :
    histMax l ∈ l := by
  induction l using List.reverseRecOn with
  | nil => cases hne rfl
  | append_singleton xs x ih =>
    rw [histMax_append]
    rcases eq_or_ne xs [] with h | h
    · subst h
      have hx : (0:ℚ) ≤ x := hnn x (by simp)
      simp [histMax, max_eq_right hx]
    · have hmem := ih (fun v hv => hnn v (List.mem_append_left _ hv)) h
      rcases le_total (histMax xs) x with hle | hle
      · rw [max_eq_right hle]; exact List.mem_append_right _ (by simp)
      · rw [max_eq_left hle]; exact List.mem_append_left _ hmem

/-- Checkpoint part of the loop invariant: either no checkpoint was written
and no recorded accuracy ever beat the initial 0, or the live checkpoint
stores the current best, a strictly positive value, recorded at the earliest
epoch attaining it. -/
def CkptInv (hist : List ℚ) (best : ℚ) : Option (Nat × ℚ) → Prop
  | none => ∀ v ∈ hist, v ≤ 0
  | some (e, v) =>
      v = best ∧ 0 < v ∧ e < hist.length ∧
      hist.getD e 0 = v ∧ ∀ j, j < e → hist.getD j 0 < v

/-- Invariant maintained by the loop: the history records exactly the
metric stream, `best` is the running maximum (seeded with 0), and the
checkpoint satisfies `CkptInv`. -/
def Inv (metrics : Nat → ℚ) (st : TrainState) : Prop :=
  st.history = (List.range st.history.length).map metrics ∧
  st.best = histMax st.history ∧
  CkptInv st.history st.best st.ckpt

theorem getD_append_lt {l : List ℚ} {j : Nat} (h : j < l.length) (v : ℚ) :
    (l ++ [v]).getD j 0 = l.getD j 0 := by
  simp [List.getD_eq_getElem?_getD, List.getElem?_append_left h]

theorem getD_append_self (l : List ℚ) (v : ℚ) :
    (l ++ [v]).getD l.length 0 = v := by
  simp [List.getD_eq_getElem?_getD]

theorem getD_mem {l : List ℚ} {j : Nat} (h : j < l.length) :
    l.getD j 0 ∈ l := by
  rw [List.getD_eq_getElem?_getD, List.getElem?_eq_getElem h]
  exact List.getElem_mem h

theorem inv_init (metrics : Nat → ℚ) : Inv metrics initState := by
  refine ⟨rfl, rfl, ?_⟩
  intro v hv
  cases hv

theorem ckptInv_improve {hist : List ℚ} {best v : ℚ}
    (hbest : best = histMax hist) (himp : best < v) :
    CkptInv (hist ++ [v]) v (some (hist.length, v)) := by
  refine ⟨rfl, ?_, ?_, ?_, ?_⟩
  · exact lt_of_le_of_lt (hbest ▸ histMax_nonneg hist) himp
  · simp
  · exact getD_append_self hist v
  · intro j hj
    rw [getD_append_lt hj]
    exact lt_of_le_of_lt (hbest ▸ le_histMax (getD_mem hj)) himp

theorem ckptInv_stall {hist : List ℚ} {best v : ℚ} {ck : Option (Nat × ℚ)}
    (hbest : best = histMax hist) (himp : ¬ best < v)
    (hck : CkptInv hist best ck) : CkptInv (hist ++ [v]) best ck := by
  cases ck with
  | none =>
    intro w hw
    rcases List.mem_append.mp hw with h | h
    · exact hck w h
    · have hw0 : w = v := by simpa using h
      subst hw0
      have hb0 : best = 0 := by
        rw [hbest, histMax]
        exact foldl_max_const hck
      exact le_of_not_lt (hb0 ▸ himp)
  | some pr =>
    obtain ⟨e', v'⟩ := pr
    obtain ⟨h1, h2, h3, h4, h5⟩ := hck
    refine ⟨h1, h2, ?_, ?_, ?_⟩
    · rw [List.length_append]; omega
    · rw [getD_append_lt h3]; exact h4
    · intro j hj
      rw [getD_append_lt (lt_trans hj h3)]
      exact h5 j hj

theorem runFrom_inv (metrics : Nat → ℚ) (p : Nat) :
    ∀ (fuel : Nat) (st : TrainState), Inv metrics st →
      Inv metrics (runFrom metrics p fuel st) := by
  intro fuel
  induction fuel with
  | zero => intro st h; exact h
  | succ n ih =>
    intro st h
    obtain ⟨hhist, hbest, hck⟩ := h
    have hrange : st.history ++ [metrics st.history.length] =
        (List.range (st.history ++ [metrics st.history.length]).length).map
          metrics := by
      rw [List.length_append, List.length_singleton, List.range_succ]
      rw [List.map_append]
      exact congrArg (· ++ [metrics st.history.length]) hhist
    cases hstop : st.earlyStopped with
    | true =>
      rw [runFrom_succ_stopped metrics p n st hstop]
      exact ⟨hhist, hbest, hck⟩
    | false =>
      by_cases himp : st.best < metrics st.history.length
      · rw [runFrom_succ_improve metrics p n st hstop himp]
        apply ih
        refine ⟨hrange, ?_, ?_⟩
        · show metrics st.history.length =
            histMax (st.history ++ [metrics st.history.length])
          rw [histMax_append, ← hbest]
          exact (max_eq_right (le_of_lt himp)).symm
        · exact ckptInv_improve hbest himp
      · have hbest' :
            st.best = histMax (st.history ++ [metrics st.history.length]) := by
          rw [histMax_append, ← hbest]
          exact (max_eq_left (le_of_not_lt himp)).symm
        have hck' : CkptInv (st.history ++ [metrics st.history.length])
            st.best st.ckpt :=
          ckptInv_stall hbest himp hck
        by_cases hpat : p ≤ st.counter + 1
        · rw [runFrom_succ_break metrics p n st hstop himp hpat]
          exact ⟨hrange, hbest', hck'⟩
        · rw [runFrom_succ_stall metrics p n st hstop himp hpat]
          exact ih _ ⟨hrange, hbest', hck'⟩

theorem trainLoop_inv (metrics : Nat → ℚ) (N p : Nat) :
    Inv metrics (trainLoop metrics N p) :=
  runFrom_inv metrics p N initState (inv_init metrics)

theorem runFrom_history_grows (metrics : Nat → ℚ) (p : Nat) :
    ∀ (fuel : Nat) (st : TrainState), 1 ≤ fuel → st.earlyStopped = false →
      st.history.length + 1 ≤ (runFrom metrics p fuel st).history.length := by
  have mono : ∀ (fuel : Nat) (st : TrainState),
      st.history.length ≤ (runFrom metrics p fuel st).history.length := by
    intro fuel
    induction fuel with
    | zero => intro st; exact le_refl _
    | succ n ih =>
      intro st
      cases hstop : st.earlyStopped with
      | true => rw [runFrom_succ_stopped metrics p n st hstop]
      | false =>
        by_cases himp : st.best < metrics st.history.length
        · rw [runFrom_succ_improve metrics p n st hstop himp]
          refine le_trans ?_ (ih _)
          simp [improveState]
        · by_cases hpat : p ≤ st.counter + 1
          · rw [runFrom_succ_break metrics p n st hstop himp hpat]
            simp [breakState]
          · rw [runFrom_succ_stall metrics p n st hstop himp hpat]
            refine le_trans ?_ (ih _)
            simp [stallState]
  intro fuel st hfuel hstop
  obtain ⟨n, rfl⟩ : ∃ n, fuel = n + 1 := ⟨fuel - 1, by omega⟩
  by_cases himp : st.best < metrics st.history.length
  · rw [runFrom_succ_improve metrics p n st hstop himp]
    refine le_trans ?_ (mono n _)
    simp [improveState]
  · by_cases hpat : p ≤ st.counter + 1
    · rw [runFrom_succ_break metrics p n st hstop himp hpat]
      simp [breakState]
    · rw [runFrom_succ_stall metrics p n st hstop himp hpat]
      refine le_trans ?_ (mono n _)
      simp [stallState]

/-- C1: for every training run (at least one epoch, validation accuracies
nonnegative as `100*correct/total` always is), the returned `best_val_acc`
equals the maximum validation accuracy in the recorded history, and the
persisted best checkpoint, when one exists, stores exactly that maximum and
comes from the earliest epoch attaining it (a later epoch of equal value
never overwrites it); no checkpoint exists only when no epoch beat the
initial 0. -/
theorem best_checkpoint_is_max (metrics : Nat → ℚ) (N p : Nat)
    (hN : 1 ≤ N) (hnn : ∀ i, 0 ≤ metrics i) :
    ((trainLoop metrics N p).best ∈ (trainLoop metrics N p).history ∧
      ∀ v ∈ (trainLoop metrics N p).history, v ≤ (trainLoop metrics N p).best) ∧
    (∀ e v, (trainLoop metrics N p).ckpt = some (e, v) →
       v = (trainLoop metrics N p).best ∧
       e < (trainLoop metrics N p).history.length ∧
       (trainLoop metrics N p).history.getD e 0 = v ∧
       ∀ j, j < e → (trainLoop metrics N p).history.getD j 0 < v) ∧
    ((trainLoop metrics N p).ckpt = none →
       ∀ v ∈ (trainLoop metrics N p).history, v ≤ 0) := by
  obtain ⟨hhist, hbest, hck⟩ := trainLoop_inv metrics N p
  set st := trainLoop metrics N p with hst
  have hlen : 1 ≤ st.history.length := by
    have := runFrom_history_grows metrics p N initState hN rfl
    simpa [initState, trainLoop, ← hst] using this
  have hne : st.history ≠ [] := by
    intro h
    rw [h] at hlen
    simp at hlen
  have hnnh : ∀ v ∈ st.history, 0 ≤ v := by
    intro v hv
    rw [hhist] at hv
    obtain ⟨i, _, rfl⟩ := List.mem_map.mp hv
    exact hnn i
  refine ⟨⟨?_, ?_⟩, ?_, ?_⟩
  · rw [hbest]; exact histMax_mem hnnh hne
  · intro v hv; rw [hbest]; exact le_histMax hv
  · intro e v hev
    cases hcm : st.ckpt with
    | none => rw [hcm] at hev; cases hev
    | some pr =>
      rw [hcm] at hev
      obtain ⟨e', v'⟩ := pr
      cases hev
      rw [hcm] at hck
      obtain ⟨h1, _, h3, h4, h5⟩ := hck
      exact ⟨h1, h3, h4, h5⟩
  · intro hnone
    rw [hnone] at hck
    exact hck

/-- Witness for C1 at the constant metric stream 1 over 2 epochs. -/
theorem best_checkpoint_is_max_witness :
    ((trainLoop (fun _ => 1) 2 5).best ∈ (trainLoop (fun _ => 1) 2 5).history ∧
      ∀ v ∈ (trainLoop (fun _ => 1) 2 5).history,
        v ≤ (trainLoop (fun _ => 1) 2 5).best) ∧
    (∀ e v, (trainLoop (fun _ => 1) 2 5).ckpt = some (e, v) →
       v = (trainLoop (fun _ => 1) 2 5).best ∧
       e < (trainLoop (fun _ => 1) 2 5).history.length ∧
       (trainLoop (fun _ => 1) 2 5).history.getD e 0 = v ∧
       ∀ j, j < e → (trainLoop (fun _ => 1) 2 5).history.getD j 0 < v) ∧
    ((trainLoop (fun _ => 1) 2 5).ckpt = none →
       ∀ v ∈ (trainLoop (fun _ => 1) 2 5).history, v ≤ 0) :=
  best_checkpoint_is_max (fun _ => 1) 2 5 (by norm_num) (fun _ => by norm_num)

theorem runFrom_split (metrics : Nat → ℚ) (p : Nat) :
    ∀ (a b : Nat) (st : TrainState),
      runFrom metrics p (a + b) st =
        runFrom metrics p b (runFrom metrics p a st) := by
  intro a
  induction a with
  | zero => intro b st; rw [Nat.zero_add]; rfl
  | succ n ih =>
    intro b st
    rw [show n + 1 + b = (n + b) + 1 from by omega]
    cases hstop : st.earlyStopped with
    | true =>
      have hkeep : ∀ f, runFrom metrics p f st = st := by
        intro f
        cases f with
        | zero => rfl
        | succ m => exact runFrom_succ_stopped metrics p m st hstop
      rw [hkeep, hkeep, hkeep]
    | false =>
      by_cases himp : st.best < metrics st.history.length
      · rw [runFrom_succ_improve metrics p (n + b) st hstop himp,
          runFrom_succ_improve metrics p n st hstop himp]
        exact ih b _
      · by_cases hpat : p ≤ st.counter + 1
        · rw [runFrom_succ_break metrics p (n + b) st hstop himp hpat,
            runFrom_succ_break metrics p n st hstop himp hpat]
          cases b with
          | zero => rfl
          | succ m =>
            exact (runFrom_succ_stopped metrics p m _ rfl).symm
        · rw [runFrom_succ_stall metrics p (n + b) st hstop himp hpat,
            runFrom_succ_stall metrics p n st hstop himp hpat]
          exact ih b _

theorem runFrom_stopped_len (metrics : Nat → ℚ) (p : Nat) :
    ∀ (fuel : Nat) (st : TrainState),
      (runFrom metrics p fuel st).earlyStopped = false →
      (runFrom metrics p fuel st).history.length = st.history.length + fuel := by
  intro fuel
  induction fuel with
  | zero => intro st _; rfl
  | succ n ih =>
    intro st hres
    cases hstop : st.earlyStopped with
    | true =>
      rw [runFrom_succ_stopped metrics p n st hstop] at hres
      rw [hstop] at hres
      exact Bool.noConfusion hres
    | false =>
      by_cases himp : st.best < metrics st.history.length
      · rw [runFrom_succ_improve metrics p n st hstop himp] at hres ⊢
        rw [ih _ hres]
        simp only [improveState, List.length_append, List.length_singleton]
        omega
      · by_cases hpat : p ≤ st.counter + 1
        · rw [runFrom_succ_break metrics p n st hstop himp hpat] at hres
          exact Bool.noConfusion hres
        · rw [runFrom_succ_stall metrics p n st hstop himp hpat] at hres ⊢
          rw [ih _ hres]
          simp only [stallState, List.length_append, List.length_singleton]
          omega

/-- After `d` further epochs without strict improvement, starting with the
counter `d` short of `patience`, the loop records exactly those `d` epochs
and takes the `break`. -/
theorem runFrom_stall (metrics : Nat → ℚ) (p : Nat) :
    ∀ (d : Nat) (fuel : Nat) (st : TrainState),
      st.earlyStopped = false → p = st.counter + d → 1 ≤ d → d ≤ fuel →
      (∀ j, st.history.length ≤ j → j < st.history.length + d →
        metrics j ≤ st.best) →
      (runFrom metrics p fuel st).history.length = st.history.length + d ∧
      (runFrom metrics p fuel st).earlyStopped = true := by
  intro d
  induction d with
  | zero => intro fuel st _ _ h1; exact absurd h1 (by omega)
  | succ n ih =>
    intro fuel st hstop hp _ hfuel hno
    obtain ⟨m, rfl⟩ : ∃ m, fuel = m + 1 := ⟨fuel - 1, by omega⟩
    have hv : ¬ st.best < metrics st.history.length := by
      refine not_lt.mpr (hno st.history.length (le_refl _) ?_)
      omega
    cases n with
    | zero =>
      rw [runFrom_succ_break metrics p m st hstop hv (by omega)]
      refine ⟨?_, rfl⟩
      show (st.history ++ [metrics st.history.length]).length =
        st.history.length + (0 + 1)
      simp only [List.length_append, List.length_singleton]
    | succ k =>
      rw [runFrom_succ_stall metrics p m st hstop hv (by omega)]
      have hrec := ih m (stallState metrics st) rfl
        (show p = st.counter + 1 + (k + 1) by omega) (by omega) (by omega)
        (by
          intro j hj1 hj2
          simp only [stallState, List.length_append, List.length_singleton]
            at hj1 hj2
          exact hno j (by omega) (by omega))
      refine ⟨?_, hrec.2⟩
      rw [hrec.1]
      simp only [stallState, List.length_append, List.length_singleton]
      omega

/-- C2: if the loop is still running when epoch `E` begins, validation
accuracy strictly improves at epoch `E` and does not strictly improve in any
of the `p` following epochs (`p ≥ 1`, with enough epoch budget left),
training halts exactly after epoch `E + p`: epochs `0..E+p` each ran once
(`E+p+1` history entries) and the early-stopping break was taken, so no
further epoch runs. -/
theorem early_stopping_exact (metrics : Nat → ℚ) (N p E : Nat)
    (hp : 1 ≤ p) (hbudget : E + p < N)
    (hlive : (trainLoop metrics E p).earlyStopped = false)
    (himp : (trainLoop metrics E p).best < metrics E)
    (hstall : ∀ i, 1 ≤ i → i ≤ p → metrics (E + i) ≤ metrics E) :
    (trainLoop metrics N p).history.length = E + p + 1 ∧
    (trainLoop metrics N p).earlyStopped = true := by
  have hElen : (trainLoop metrics E p).history.length = E := by
    have := runFrom_stopped_len metrics p E initState hlive
    simpa [trainLoop, initState] using this
  have hsplit : trainLoop metrics N p =
      runFrom metrics p (N - E) (trainLoop metrics E p) := by
    rw [trainLoop, trainLoop]
    rw [show N = E + (N - E) by omega]
    rw [runFrom_split]
    congr 1
    omega
  set sE := trainLoop metrics E p with hsE
  obtain ⟨m, hm⟩ : ∃ m, N - E = m + 1 := ⟨N - E - 1, by omega⟩
  rw [hsplit, hm]
  rw [runFrom_succ_improve metrics p m sE hlive (by rw [hElen]; exact himp)]
  have hrec := runFrom_stall metrics p p m (improveState metrics sE) rfl
    (show p = 0 + p by omega) hp (by omega)
    (by
      intro j hj1 hj2
      simp only [improveState, List.length_append, List.length_singleton,
        hElen] at hj1 hj2
      have h1 : 1 ≤ j - E := by omega
      have h2 : j - E ≤ p := by omega
      have hs := hstall (j - E) h1 h2
      rw [show E + (j - E) = j from by omega] at hs
      show metrics j ≤ metrics sE.history.length
      rw [hElen]
      exact hs)
  refine ⟨?_, hrec.2⟩
  rw [hrec.1]
  simp only [improveState, List.length_append, List.length_singleton, hElen]
  omega

/-- Metric stream used by the C2 witness: accuracy 1 at epoch 0 and 0
afterwards. -/
def stepMetrics : Nat → ℚ := fun e => if e = 0 then 1 else 0

/-- Witness for C2: with the last improvement at epoch 0 and patience 2,
training halts exactly after epoch 2 (three epochs recorded) out of an
allowed 10. -/
theorem early_stopping_exact_witness :
    (trainLoop stepMetrics 10 2).history.length = 0 + 2 + 1 ∧
    (trainLoop stepMetrics 10 2).earlyStopped = true :=
  early_stopping_exact stepMetrics 10 2 0 (by norm_num) (by norm_num)
    (by rfl)
    (by decide)
    (by
      intro i h1 _
      show stepMetrics (0 + i) ≤ stepMetrics 0
      rw [show 0 + i = i from by omega]
      have hi : ¬ i = 0 := by omega
      simp [stepMetrics, hi])

end Training

namespace Collate

/-- Zero-padding of one sequence (a list of timestep rows of width `d`) on
its trailing edge up to length `L`, as torch's `pad_sequence` with
`batch_first=True, padding_value=0.0` does per sample. -/
def padSeq (L d : Nat) (s : List (List ℚ)) : List (List ℚ) :=
  s ++ List.replicate (L - s.length) (List.replicate d 0)

/-- Maximum sequence length over the batch (0 for an empty batch), the
common length `pad_sequence` pads to. -/
def maxLen (seqs : List (List (List ℚ))) : Nat :=
  seqs.foldl (fun a s => max a s.length) 0

/-- `collate_sequences` (05_train_temporal.py, lines 45-51): the batch is a
list of `(sequence, label)` pairs (the dataset's `__getitem__` returns the
sequence, its label, and `len(sequence)`); the result is the padded
sequence tensor, the stacked labels and the recorded true lengths.  `d` is
the feature width (63 in the scripts), the trailing dimension shared by all
sequences that `pad_sequence` requires. -/
def collate_sequences (d : Nat) (batch : List (List (List ℚ) × Nat)) :
    List (List (List ℚ)) × List Nat × List Nat :=
  (batch.map (fun sy => padSeq (maxLen (batch.map Prod.fst)) d sy.1),
   batch.map Prod.snd,
   batch.map (fun sy => sy.1.length))

theorem length_le_maxLen {seqs : List (List (List ℚ))} {s : List (List ℚ)}
    (hs : s ∈ seqs) : s.length ≤ maxLen seqs := by
  have h := Training.mem_le_foldl_max (List.mem_map_of_mem List.length hs) 0
  simpa [maxLen, List.foldl_map] using h

theorem padSeq_length {L d : Nat} {s : List (List ℚ)} (h : s.length ≤ L) :
    (padSeq L d s).length = L := by
  simp only [padSeq, List.length_append, List.length_replicate]
  omega

theorem getD_map_of_lt {α β : Type} (f : α → β) (l : List α) (i : Nat)
    (a : α) (b : β) (hi : i < l.length) :
    (l.map f).getD i b = f (l.getD i a) := by
  rw [List.getD_eq_getElem?_getD, List.getElem?_map,
    List.getElem?_eq_getElem hi]
  rw [List.getD_eq_getElem?_getD, List.getElem?_eq_getElem hi]
  rfl

/-- C3: for every batch and every sample `i` in it with true length
`L_i = length of its original sequence`, the padded slot produced by
`collate_sequences` (i) restricted to its first `L_i` rows equals the
original sequence exactly, (ii) is the all-zero `d`-vector at every row from
`L_i` up to the batch maximum length, (iii) has exactly the batch maximum
length, and the recorded length for sample `i` is `L_i`. -/
theorem collate_sequences_pad_correct (d : Nat)
    (batch : List (List (List ℚ) × Nat)) (i : Nat) (hi : i < batch.length) :
    ((collate_sequences d batch).1.getD i []).take
        ((batch.getD i ([], 0)).1.length) = (batch.getD i ([], 0)).1 ∧
    (∀ j, (batch.getD i ([], 0)).1.length ≤ j →
      j < maxLen (batch.map Prod.fst) →
      ((collate_sequences d batch).1.getD i []).getD j [] =
        List.replicate d 0) ∧
    ((collate_sequences d batch).1.getD i []).length =
      maxLen (batch.map Prod.fst) ∧
    (collate_sequences d batch).2.2.getD i 0 =
      (batch.getD i ([], 0)).1.length := by
  have hm : (batch.getD i ([], 0)) ∈ batch := by
    rw [List.getD_eq_getElem?_getD, List.getElem?_eq_getElem hi]
    exact List.getElem_mem hi
  have hmem : (batch.getD i ([], 0)).1 ∈ batch.map Prod.fst :=
    List.mem_map_of_mem Prod.fst hm
  have hlen : (batch.getD i ([], 0)).1.length ≤ maxLen (batch.map Prod.fst) :=
    length_le_maxLen hmem
  have hslot : (collate_sequences d batch).1.getD i [] =
      padSeq (maxLen (batch.map Prod.fst)) d (batch.getD i ([], 0)).1 := by
    exact getD_map_of_lt _ batch i ([], 0) [] hi
  have hlens : (collate_sequences d batch).2.2.getD i 0 =
      (batch.getD i ([], 0)).1.length := by
    exact getD_map_of_lt _ batch i ([], 0) 0 hi
  refine ⟨?_, ?_, ?_, hlens⟩
  · rw [hslot, padSeq, List.take_left]
  · intro j hj1 hj2
    rw [hslot, padSeq]
    rw [List.getD_eq_getElem?_getD, List.getElem?_append_right hj1]
    rw [List.getElem?_replicate]
    rw [if_pos (by omega)]
    rfl
  · rw [hslot]
    exact padSeq_length hlen

/-- Concrete two-sample batch (feature width 1, lengths 1 and 3) used by
the C3 witness. -/
def batchW : List (List (List ℚ) × Nat) := [([[5]], 0), ([[1], [2], [3]], 1)]

/-- Witness for C3 at `batchW`, sample 0. -/
theorem collate_sequences_pad_correct_witness :
    ((collate_sequences 1 batchW).1.getD 0 []).take
        ((batchW.getD 0 ([], 0)).1.length) = (batchW.getD 0 ([], 0)).1 ∧
    (∀ j, (batchW.getD 0 ([], 0)).1.length ≤ j →
      j < maxLen (batchW.map Prod.fst) →
      ((collate_sequences 1 batchW).1.getD 0 []).getD j [] =
        List.replicate 1 0) ∧
    ((collate_sequences 1 batchW).1.getD 0 []).length =
      maxLen (batchW.map Prod.fst) ∧
    (collate_sequences 1 batchW).2.2.getD 0 0 =
      (batchW.getD 0 ([], 0)).1.length :=
  collate_sequences_pad_correct 1 batchW 0 (by decide)

end Collate

namespace SeqStep

/-- Index of the first maximal logit, as `outputs.max(1)` yields for a
batch row (ties resolved to the first occurrence). -/
def predictedClass (logits : List ℚ) : Nat :=
  logits.indexOf (logits.foldl max (logits.headD 0))

/-- One batch as the training/validation loops of
`05_train_temporal.py` destructure it: `for sequences, labels, lengths in
loader`. -/
structure SeqBatch where
  sequences : List (List (List ℚ))
  labels : List Nat
  lengths : List Nat

/-- Correct-prediction count of a model over given per-sample inputs, the
per-batch `predicted.eq(labels).sum().item()`.  The opaque model maps one
(possibly padded) sequence to its class logits; the batch dimension is a
map over samples. -/
def stepCorrect (model : List (List ℚ) → List ℚ)
    (seqs : List (List (List ℚ))) (labels : List Nat) : Nat :=
  ((seqs.zip labels).filter
    (fun sy => predictedClass (model sy.1) == sy.2)).length

/-- The correct count the code computes per batch (lines 112-125 and
136-144 of `05_train_temporal.py`): `outputs = model(sequences)` on the
padded tensor — the `lengths` component of the batch tuple is unpacked but
never referenced. -/
def trainStepCorrect (model : List (List ℚ) → List ℚ) (b : SeqBatch) : Nat :=
  stepCorrect model b.sequences b.labels

/-- Modelled from the spec: the masked correct count the spec describes, in
which each sample is truncated to its true length before the model and the
metrics see it, so padded timesteps cannot influence the result. -/
def maskedStepCorrect (model : List (List ℚ) → List ℚ) (b : SeqBatch) :
    Nat :=
  stepCorrect model
    ((b.sequences.zip b.lengths).map (fun sl => sl.1.take sl.2)) b.labels

/-- Length-sensitive model used by the C4 counterexample: predicts class 0
for sequences of at most one timestep and class 1 otherwise. -/
def modelLen : List (List ℚ) → List ℚ :=
  fun s => if s.length ≤ 1 then [1, 0] else [0, 1]

/-- Batch produced by `collate_sequences` from two sequences of true
lengths 1 and 3 with labels 0 and 1, as the training loop receives it. -/
def seqBatchC : SeqBatch :=
  { sequences :=
      (Collate.collate_sequences 1 [([[5]], 0), ([[5], [5], [5]], 1)]).1,
    labels :=
      (Collate.collate_sequences 1 [([[5]], 0), ([[5], [5], [5]], 1)]).2.1,
    lengths :=
      (Collate.collate_sequences 1 [([[5]], 0), ([[5], [5], [5]], 1)]).2.2 }

/-- C4 counterexample: on a batch built by `collate_sequences`, the
correct-prediction count the code computes from the padded tensor differs
from the count computed on the un-padded portions (1 versus 2), so the loss
and metrics do depend on padded timesteps — the true lengths carried in the
batch are not supplied to the forward/loss computation. -/
theorem train_step_counterexample :
    trainStepCorrect modelLen seqBatchC = 1 ∧
    maskedStepCorrect modelLen seqBatchC = 2 := by
  constructor <;> rfl

/-- C4 (amended): the training/validation step computes its metrics from
the padded sequences and the labels alone; the `lengths` field of the batch
is never consulted, so the computation is invariant under replacing it with
anything else (and padded timesteps are consequently not masked). -/
theorem train_step_ignores_lengths (model : List (List ℚ) → List ℚ)
    (seqs : List (List (List ℚ))) (labels : List Nat) (l1 l2 : List Nat) :
    trainStepCorrect model ⟨seqs, labels, l1⟩ =
      trainStepCorrect model ⟨seqs, labels, l2⟩ := rfl

end SeqStep

namespace Splits

/-- Errors observable from `create_splits`.  The spec names an
`InsufficientSamplesError`; the script defines no such exception (it only
computes and prints the minimum per-class count), so the constructor exists
solely to state its absence.  `stratifyValueError` models the generic
`ValueError` of the external library. -/
inductive SplitError where
  | insufficientSamples (className : String) : SplitError
  | stratifyValueError (msg : String) : SplitError
deriving DecidableEq, Repr

/-- A label list admits stratification only when every class present has at
least 2 members (the external library's documented requirement). -/
def hasRareClass (labels : List Nat) : Bool :=
  labels.any (fun c => labels.count c < 2)

/-- Number of distinct classes present in a label list. -/
def numClasses (labels : List Nat) : Nat := labels.dedup.length

/-- Shuffle-and-cut split of an index list: the seeded shuffle is abstracted
as the permutation `shuffle` it produces; the second component is the
`test_size` cut of `k` indices, the first the remainder. -/
def twoWaySplit (shuffle : List Nat → List Nat) (idx : List Nat) (k : Nat) :
    List Nat × List Nat :=
  ((shuffle idx).drop k, (shuffle idx).take k)

/-- Modelled from the documented behaviour of the external
`sklearn.model_selection.train_test_split(stratify=...)` (not repository
code).  Its stratified splitter raises a generic `ValueError` on each of
three documented conditions: the least populated class has fewer than
2 members, the test fold is smaller than the number of classes, or the
train fold is smaller than the number of classes; otherwise it partitions
the input into a remainder and a test cut after a seeded shuffle. -/
def stratifiedSplit (shuffle : List Nat → List Nat) (idx : List Nat)
    (labelOf : Nat → Nat) (k : Nat) :
    Except SplitError (List Nat × List Nat) :=
  if hasRareClass (idx.map labelOf) then
    Except.error
      (SplitError.stratifyValueError "least populated class below 2 members")
  else if k < numClasses (idx.map labelOf) then
    Except.error
      (SplitError.stratifyValueError
        "test_size smaller than the number of classes")
  else if idx.length - k < numClasses (idx.map labelOf) then
    Except.error
      (SplitError.stratifyValueError
        "train_size smaller than the number of classes")
  else
    Except.ok (twoWaySplit shuffle idx k)

/-- A successful `stratifiedSplit` is exactly the shuffle-and-cut. -/
theorem stratifiedSplit_ok {shuffle : List Nat → List Nat} {idx : List Nat}
    {labelOf : Nat → Nat} {k : Nat} {a b : List Nat}
    (h : stratifiedSplit shuffle idx labelOf k = Except.ok (a, b)) :
    a = (shuffle idx).drop k ∧ b = (shuffle idx).take k := by
  rw [stratifiedSplit] at h
  by_cases h1 : hasRareClass (idx.map labelOf)
  · rw [if_pos h1] at h
    exact Except.noConfusion h
  · rw [if_neg h1] at h
    by_cases h2 : k < numClasses (idx.map labelOf)
    · rw [if_pos h2] at h
      exact Except.noConfusion h
    · rw [if_neg h2] at h
      by_cases h3 : idx.length - k < numClasses (idx.map labelOf)
      · rw [if_pos h3] at h
        exact Except.noConfusion h
      · rw [if_neg h3] at h
        injection h with h'
        rw [twoWaySplit] at h'
        injection h' with ha hb
        exact ⟨ha.symm, hb.symm⟩

/-- `stratifiedSplit` can only fail with the library's generic error. -/
theorem stratifiedSplit_not_insufficient (shuffle : List Nat → List Nat)
    (idx : List Nat) (labelOf : Nat → Nat) (k : Nat) (c : String) :
    stratifiedSplit shuffle idx labelOf k ≠
      Except.error (SplitError.insufficientSamples c) := by
  rw [stratifiedSplit]
  by_cases h1 : hasRareClass (idx.map labelOf)
  · rw [if_pos h1]
    intro h
    injection h with h'
    exact SplitError.noConfusion h'
  · rw [if_neg h1]
    by_cases h2 : k < numClasses (idx.map labelOf)
    · rw [if_pos h2]
      intro h
      injection h with h'
      exact SplitError.noConfusion h'
    · rw [if_neg h2]
      by_cases h3 : idx.length - k < numClasses (idx.map labelOf)
      · rw [if_pos h3]
        intro h
        injection h with h'
        exact SplitError.noConfusion h'
      · rw [if_neg h3]
        intro h
        exact Except.noConfusion h

/-- `DatasetCleaner.create_splits` (03_create_splits.py, lines 109-145)
restricted to its index bookkeeping: the sample indices `0..n-1` are split
into train+val versus test by one stratified split, then train+val into
train and val by a second; the per-class minimum computed at lines 110-115
is only printed, never checked.  `labels` lists each sample's class,
`kTest`/`kVal` are the cut sizes of the two splits, `sh1`/`sh2` the
permutations the two seeded shuffles produce. -/
def create_splits (sh1 sh2 : List Nat → List Nat) (labels : List Nat)
    (kTest kVal : Nat) :
    Except SplitError (List Nat × List Nat × List Nat) :=
  match stratifiedSplit sh1 (List.range labels.length)
      (fun i => labels.getD i 0) kTest with
  | Except.error e => Except.error e
  | Except.ok (trainVal, test) =>
    match stratifiedSplit sh2 trainVal (fun i => labels.getD i 0) kVal with
    | Except.error e => Except.error e
    | Except.ok (train, val) => Except.ok (train, val, test)

theorem twoWaySplit_perm (shuffle : List Nat → List Nat)
    (hsh : ∀ l, (shuffle l).Perm l) (idx : List Nat) (k : Nat) :
    ((twoWaySplit shuffle idx k).1 ++ (twoWaySplit shuffle idx k).2).Perm
      idx := by
  refine List.Perm.trans (List.perm_append_comm) ?_
  refine List.Perm.trans ?_ (hsh idx)
  show ((shuffle idx).take k ++ (shuffle idx).drop k).Perm (shuffle idx)
  rw [List.take_append_drop]

/-- C5: whenever `create_splits` succeeds (the shuffles being permutations,
as seeded shuffles are), the three returned index lists are pairwise
disjoint and together form a permutation of the full index range, so their
sizes add up to the number of loaded samples and no sample appears in two
splits. -/
theorem create_splits_partition (sh1 sh2 : List Nat → List Nat)
    (labels : List Nat) (kTest kVal : Nat)
    (h1 : ∀ l, (sh1 l).Perm l) (h2 : ∀ l, (sh2 l).Perm l)
    (tr va te : List Nat)
    (hok : create_splits sh1 sh2 labels kTest kVal =
      Except.ok (tr, va, te)) :
    (tr ++ va ++ te).Perm (List.range labels.length) ∧
    tr.length + va.length + te.length = labels.length ∧
    tr.Disjoint va ∧ tr.Disjoint te ∧ va.Disjoint te := by
  rw [create_splits] at hok
  split at hok
  · exact Except.noConfusion hok
  · next trainVal test heq1 =>
      split at hok
      · exact Except.noConfusion hok
      · next train val heq2 =>
          obtain ⟨hTV, hTE⟩ := stratifiedSplit_ok heq1
          obtain ⟨hTR, hVA⟩ := stratifiedSplit_ok heq2
          simp only [Except.ok.injEq, Prod.mk.injEq] at hok
          obtain ⟨htr, hva, hte⟩ := hok
          have hinner : (tr ++ va).Perm trainVal := by
            rw [← htr, ← hva, hTR, hVA]
            exact twoWaySplit_perm sh2 h2 trainVal kVal
          have houter : (trainVal ++ test).Perm (List.range labels.length) := by
            rw [hTV, hTE]
            exact twoWaySplit_perm sh1 h1 (List.range labels.length) kTest
          have hperm : (tr ++ va ++ te).Perm (List.range labels.length) := by
            refine List.Perm.trans ?_ houter
            rw [← hte]
            exact hinner.append_right test
          refine ⟨hperm, ?_, ?_⟩
          · have hlen := hperm.length_eq
            simp only [List.length_append, List.length_range] at hlen
            omega
          · have hnd : (tr ++ va ++ te).Nodup :=
              hperm.nodup_iff.mpr (List.nodup_range _)
            rw [List.nodup_append, List.nodup_append] at hnd
            obtain ⟨⟨_, _, h12⟩, _, h123⟩ := hnd
            refine ⟨h12, ?_, ?_⟩
            · intro x hx hx'
              exact h123 (List.mem_append_left _ hx) hx'
            · intro x hx hx'
              exact h123 (List.mem_append_right _ hx) hx'

/-- Witness for C5: identity shuffles on ten samples over two classes with
cuts of 2 and 2. -/
theorem create_splits_partition_witness :
    (([4, 5, 6, 7, 8, 9] ++ [2, 3] ++ [0, 1] : List Nat).Perm
      (List.range ([1, 1, 0, 0, 1, 1, 1, 1, 1, 1] : List Nat).length) ∧
    ([4, 5, 6, 7, 8, 9] : List Nat).length + ([2, 3] : List Nat).length +
      ([0, 1] : List Nat).length =
      ([1, 1, 0, 0, 1, 1, 1, 1, 1, 1] : List Nat).length ∧
    ([4, 5, 6, 7, 8, 9] : List Nat).Disjoint [2, 3] ∧
    ([4, 5, 6, 7, 8, 9] : List Nat).Disjoint [0, 1] ∧
    ([2, 3] : List Nat).Disjoint [0, 1]) :=
  create_splits_partition id id [1, 1, 0, 0, 1, 1, 1, 1, 1, 1] 2 2
    (fun l => List.Perm.refl l) (fun l => List.Perm.refl l)
    [4, 5, 6, 7, 8, 9] [2, 3] [0, 1] (by rfl)

/-- Recogniser for the error the spec names. -/
def isInsufficient : Except SplitError (List Nat × List Nat × List Nat) →
    Bool
  | Except.error (SplitError.insufficientSamples _) => true
  | _ => false

/-- C6 counterexample: ten samples over two classes, class 0 holding only
2 samples (fewer than the 3 the claim requires).  Both stratified splits
satisfy every library requirement (each class keeps at least 2 members at
each split, and both fold sizes are at least the 2 classes), so
`create_splits` neither raises an `InsufficientSamplesError` nor fails at
all — it proceeds and returns splits. -/
theorem create_splits_no_min_check :
    (([1, 1, 0, 0, 1, 1, 1, 1, 1, 1] : List Nat).count 0 = 2) ∧
    create_splits id id [1, 1, 0, 0, 1, 1, 1, 1, 1, 1] 2 2 =
      Except.ok ([4, 5, 6, 7, 8, 9], [2, 3], [0, 1]) ∧
    isInsufficient (create_splits id id [1, 1, 0, 0, 1, 1, 1, 1, 1, 1] 2 2) =
      false := by
  refine ⟨by decide, by rfl, by rfl⟩

/-- C6 (amended): `create_splits` performs no minimum-samples check at all —
for every input it never fails with an `InsufficientSamplesError`; a class
too small for stratification surfaces only as the external library's
generic error, and a class of 2 samples can even proceed normally. -/
theorem create_splits_never_insufficient (sh1 sh2 : List Nat → List Nat)
    (labels : List Nat) (kTest kVal : Nat) :
    isInsufficient (create_splits sh1 sh2 labels kTest kVal) = false := by
  rw [create_splits]
  split
  · next e heq =>
      cases e with
      | insufficientSamples c =>
          exact absurd heq (stratifiedSplit_not_insufficient sh1 _ _ kTest c)
      | stratifyValueError m => rfl
  · next trainVal test heq =>
      split
      · next e heq2 =>
          cases e with
          | insufficientSamples c =>
              exact absurd heq2
                (stratifiedSplit_not_insufficient sh2 trainVal _ kVal c)
          | stratifyValueError m => rfl
      · next train val heq2 => rfl

end Splits

namespace Loading

/-- Landmark payload of one pickled record, as `create_splits` receives it:
either a 2-d `(21, 3)` array or a 3-d `(frames, 21, 3)` array, embedded as
nested lists of rationals. -/
inductive Landmarks where
  | twoD (m : List (List ℚ)) : Landmarks
  | threeD (frames : List (List (List ℚ))) : Landmarks

/-- Feature extraction of `create_splits` (03_create_splits.py, lines
83-91): a 3-d array is reduced to its first frame (`landmarks[0]`; on an
empty array this raises `IndexError`, which the `except` clause at line 103
turns into skipping the sample, hence `none`), and the result is flattened
into the stored `features` vector. -/
def loadFeatures : Landmarks → Option (List ℚ)
  | Landmarks.twoD m => some m.flatten
  | Landmarks.threeD [] => none
  | Landmarks.threeD (f :: _) => some f.flatten

/-- C10: during split creation, every sample whose landmark array is
3-dimensional with frames of shape 21×3 is reduced to its first frame
before flattening: whenever such a sample loads successfully — whatever the
number of frames — the stored features are the flattening of the first
frame alone (every later frame is discarded) and have exactly
21 · 3 = 63 entries. -/
theorem loadFeatures_first_frame (frames : List (List (List ℚ)))
    (feats : List ℚ)
    (hshape : ∀ f ∈ frames, f.length = 21 ∧ ∀ r ∈ f, r.length = 3)
    (hload : loadFeatures (Landmarks.threeD frames) = some feats) :
    ∃ f rest, frames = f :: rest ∧ feats = f.flatten ∧ feats.length = 63 := by
  cases frames with
  | nil => cases hload
  | cons f rest =>
    have hfe : f.flatten = feats := by injection hload
    refine ⟨f, rest, rfl, hfe.symm, ?_⟩
    obtain ⟨hf21, hf3⟩ := hshape f (List.mem_cons_self f rest)
    rw [← hfe, List.length_flatten]
    have hmap : f.map List.length = List.replicate 21 3 := by
      refine List.eq_replicate_iff.mpr ⟨?_, ?_⟩
      · rw [List.length_map, hf21]
      · intro x hx
        obtain ⟨r, hr, rfl⟩ := List.mem_map.mp hx
        exact hf3 r hr
    rw [hmap, List.sum_replicate, smul_eq_mul]

/-- First frame used by the C10 witness: 21 rows of 3 zeros. -/
def frameW : List (List ℚ) := List.replicate 21 (List.replicate 3 0)

/-- Witness for C10 on a 2-frame 3-d sample of shape (2, 21, 3). -/
theorem loadFeatures_first_frame_witness :
    ∃ f rest, (List.replicate 2 frameW) = f :: rest ∧
      frameW.flatten = f.flatten ∧ frameW.flatten.length = 63 :=
  loadFeatures_first_frame (List.replicate 2 frameW) frameW.flatten
    (by decide) (by rfl)

end Loading

namespace Harness

/-- The three architectures `run_all` trains, in its fixed order. -/
inductive ModelId where
  | transformer
  | gru
  | tcn
deriving DecidableEq, Repr

/-- Per-model entry of the `results` dictionary assembled by `run_all`. -/
structure ModelResult where
  best_val_acc : ℚ
  test_acc : ℚ
  params : Nat
deriving DecidableEq, Repr

/-- `MultiModelTrainer.run_all` (05_train_temporal.py, lines 209-284):
trains then evaluates transformer, gru and tcn strictly in that order and
collects `results` entries in the same order (both the saved JSON and the
printed summary iterate the dictionary in insertion order, lines 270-282).
The per-model train-and-evaluate pipeline is the opaque `runModel`; the
Python body contains no try/except, so a raised error propagates out of
`run_all` at once.  The second component records which model runs were
started. -/
def run_all (runModel : ModelId → Except String ModelResult) :
    Except String (List (ModelId × ModelResult)) × List ModelId :=
  match runModel ModelId.transformer with
  | Except.error e => (Except.error e, [ModelId.transformer])
  | Except.ok r1 =>
    match runModel ModelId.gru with
    | Except.error e =>
        (Except.error e, [ModelId.transformer, ModelId.gru])
    | Except.ok r2 =>
      match runModel ModelId.tcn with
      | Except.error e =>
          (Except.error e, [ModelId.transformer, ModelId.gru, ModelId.tcn])
      | Except.ok r3 =>
          (Except.ok [(ModelId.transformer, r1), (ModelId.gru, r2),
              (ModelId.tcn, r3)],
            [ModelId.transformer, ModelId.gru, ModelId.tcn])

/-- Run function whose first model fails fatally, used against C7. -/
def failFirst : ModelId → Except String ModelResult
  | ModelId.transformer => Except.error "ModelRuntimeError"
  | _ => Except.ok ⟨0, 0, 0⟩

/-- C7 counterexample: when the transformer run raises a fatal error, the
whole comparison aborts with that error — no per-model "failed" entry is
produced and the gru and tcn runs are never started (only the transformer
appears in the started-run trace). -/
theorem run_all_failure_aborts_counterexample :
    run_all failFirst =
      (Except.error "ModelRuntimeError", [ModelId.transformer]) := rfl

/-- The fixed order in which `run_all` trains the models. -/
def modelOrder : List ModelId :=
  [ModelId.transformer, ModelId.gru, ModelId.tcn]

/-- C7 (amended): `run_all` has no error handling: whichever model in the
fixed order is the first whose train-and-evaluate run raises a fatal error
(every model before it having succeeded), that error propagates out of the
comparison unchanged, no "failed" entry is recorded for the model, and the
models after it in the order are never started. -/
theorem run_all_aborts_on_failure
    (f : ModelId → Except String ModelResult) (e : String) (i : Nat)
    (hi : i < modelOrder.length)
    (hok : ∀ j, j < i →
      ∃ r, f (modelOrder.getD j ModelId.transformer) = Except.ok r)
    (herr : f (modelOrder.getD i ModelId.transformer) = Except.error e) :
    run_all f = (Except.error e, modelOrder.take (i + 1)) := by
  match i with
  | 0 =>
    rw [run_all]
    rw [show modelOrder.getD 0 ModelId.transformer = ModelId.transformer
      from rfl] at herr
    rw [herr]
    rfl
  | 1 =>
    obtain ⟨r1, h1⟩ := hok 0 (by omega)
    rw [show modelOrder.getD 0 ModelId.transformer = ModelId.transformer
      from rfl] at h1
    rw [show modelOrder.getD 1 ModelId.transformer = ModelId.gru
      from rfl] at herr
    rw [run_all, h1, herr]
    rfl
  | 2 =>
    obtain ⟨r1, h1⟩ := hok 0 (by omega)
    obtain ⟨r2, h2⟩ := hok 1 (by omega)
    rw [show modelOrder.getD 0 ModelId.transformer = ModelId.transformer
      from rfl] at h1
    rw [show modelOrder.getD 1 ModelId.transformer = ModelId.gru
      from rfl] at h2
    rw [show modelOrder.getD 2 ModelId.transformer = ModelId.tcn
      from rfl] at herr
    rw [run_all, h1, h2, herr]
    rfl
  | (n + 3) =>
    exact absurd hi (by simp [modelOrder])

/-- Run function whose middle model (gru) fails fatally, used by the C7
witness. -/
def failGru : ModelId → Except String ModelResult
  | ModelId.gru => Except.error "ModelRuntimeError"
  | _ => Except.ok ⟨0, 0, 0⟩

/-- Witness for the amended C7 theorem at `failGru`: the transformer run
succeeded, the gru run fails, and the comparison aborts without ever
starting tcn. -/
theorem run_all_aborts_on_failure_witness :
    run_all failGru =
      (Except.error "ModelRuntimeError", [ModelId.transformer, ModelId.gru]) :=
  run_all_aborts_on_failure failGru "ModelRuntimeError" 1 (by decide)
    (by
      intro j hj
      interval_cases j
      exact ⟨⟨0, 0, 0⟩, rfl⟩)
    (by rfl)

/-- The ranking relation the spec claims for adjacent table entries: higher
test accuracy first, ties broken by lower parameter count. -/
def RankedDesc (a b : ModelId × ModelResult) : Prop :=
  b.2.test_acc < a.2.test_acc ∨
    (a.2.test_acc = b.2.test_acc ∧ a.2.params ≤ b.2.params)

instance : DecidableRel RankedDesc := fun a b =>
  inferInstanceAs (Decidable (b.2.test_acc < a.2.test_acc ∨
    (a.2.test_acc = b.2.test_acc ∧ a.2.params ≤ b.2.params)))

/-- Run function whose middle model scores highest, used against C8. -/
def okRuns : ModelId → Except String ModelResult
  | ModelId.transformer => Except.ok ⟨0, 10, 5⟩
  | ModelId.gru => Except.ok ⟨0, 90, 5⟩
  | ModelId.tcn => Except.ok ⟨0, 50, 5⟩

/-- C8 counterexample: with test accuracies 10, 90, 50 the emitted table
keeps the fixed run order transformer, gru, tcn, whose adjacent entries
violate the claimed descending-by-test-accuracy ordering. -/
theorem run_all_table_unsorted_counterexample :
    (run_all okRuns).1 = Except.ok [(ModelId.transformer, ⟨0, 10, 5⟩),
      (ModelId.gru, ⟨0, 90, 5⟩), (ModelId.tcn, ⟨0, 50, 5⟩)] ∧
    ¬ List.Chain' RankedDesc [(ModelId.transformer, ⟨0, 10, 5⟩),
      (ModelId.gru, ⟨0, 90, 5⟩), (ModelId.tcn, ⟨0, 50, 5⟩)] := by
  refine ⟨rfl, ?_⟩
  intro h
  rcases (List.chain'_cons.mp h).1 with hlt | hpair
  · exact absurd hlt (by norm_num)
  · exact absurd hpair.1 (by norm_num)

/-- C8 (amended): the comparison results are emitted in the fixed order in
which the models are run — transformer, gru, tcn — independent of their
test accuracies and parameter counts; no sorting and no parameter-count
tie-break happens. -/
theorem run_all_table_order (f : ModelId → Except String ModelResult)
    (r1 r2 r3 : ModelResult)
    (h1 : f ModelId.transformer = Except.ok r1)
    (h2 : f ModelId.gru = Except.ok r2)
    (h3 : f ModelId.tcn = Except.ok r3) :
    (run_all f).1 = Except.ok [(ModelId.transformer, r1), (ModelId.gru, r2),
      (ModelId.tcn, r3)] := by
  rw [run_all, h1, h2, h3]

/-- Witness for the amended C8 theorem at `okRuns`. -/
theorem run_all_table_order_witness :
    (run_all okRuns).1 = Except.ok [(ModelId.transformer, ⟨0, 10, 5⟩),
      (ModelId.gru, ⟨0, 90, 5⟩), (ModelId.tcn, ⟨0, 50, 5⟩)] :=
  run_all_table_order okRuns ⟨0, 10, 5⟩ ⟨0, 90, 5⟩ ⟨0, 50, 5⟩
    (by rfl) (by rfl) (by rfl)

end Harness

namespace Epoch

/-- Per-batch observables of the accumulation loop: `meanLoss` is
`loss.item()` (the mean cross-entropy over the batch, since
`nn.CrossEntropyLoss` reduces by mean), `correct` the batch's correct
predictions, `size` the batch size `X_batch.size(0)`. -/
structure BatchStat where
  meanLoss : ℚ
  correct : Nat
  size : Nat
deriving DecidableEq, Repr

/-- The per-epoch accumulation of `Trainer.train` (04_train_mlp.py, lines
115-134) and `train_model` (05_train_temporal.py, lines 106-128):
`loss += loss.item() * batch_size`, `correct += ...`, `total += batch_size`
over the epoch's batches. -/
def accumulate (bs : List BatchStat) : ℚ × Nat × Nat :=
  bs.foldl
    (fun acc b =>
      (acc.1 + b.meanLoss * (b.size : ℚ), acc.2.1 + b.correct,
        acc.2.2 + b.size))
    (0, 0, 0)

/-- Reported epoch loss: `train_loss /= train_total`. -/
def epochLoss (bs : List BatchStat) : ℚ :=
  (accumulate bs).1 / ((accumulate bs).2.2 : ℚ)

/-- Reported epoch accuracy: `100. * train_correct / train_total`. -/
def epochAcc (bs : List BatchStat) : ℚ :=
  100 * ((accumulate bs).2.1 : ℚ) / ((accumulate bs).2.2 : ℚ)

/-- Accuracy of a single batch on its own. -/
def batchAcc (b : BatchStat) : ℚ := 100 * (b.correct : ℚ) / (b.size : ℚ)

/-- The unweighted mean of per-batch mean losses the claim contrasts
against. -/
def meanOfBatchLosses (bs : List BatchStat) : ℚ :=
  (bs.map (fun b => b.meanLoss)).sum / (bs.length : ℚ)

/-- The unweighted mean of per-batch accuracies the claim contrasts
against. -/
def meanOfBatchAccs (bs : List BatchStat) : ℚ :=
  (bs.map batchAcc).sum / (bs.length : ℚ)

theorem accumulate_foldl (bs : List BatchStat) :
    ∀ a : ℚ × Nat × Nat,
      bs.foldl
        (fun acc b =>
          (acc.1 + b.meanLoss * (b.size : ℚ), acc.2.1 + b.correct,
            acc.2.2 + b.size)) a =
      (a.1 + (bs.map (fun b => b.meanLoss * (b.size : ℚ))).sum,
        a.2.1 + (bs.map (fun b => b.correct)).sum,
        a.2.2 + (bs.map (fun b => b.size)).sum) := by
  induction bs with
  | nil => intro a; simp
  | cons b tl ih =>
    intro a
    simp only [List.foldl_cons, List.map_cons, List.sum_cons]
    rw [ih]
    simp only [Prod.mk.injEq]
    refine ⟨by ring, by omega, by omega⟩

theorem accumulate_eq (bs : List BatchStat) :
    accumulate bs = ((bs.map (fun b => b.meanLoss * (b.size : ℚ))).sum,
      (bs.map (fun b => b.correct)).sum, (bs.map (fun b => b.size)).sum) := by
  rw [accumulate, accumulate_foldl]
  simp

/-- C9 (amended): for every list of batches — of equal sizes or not — the
reported epoch loss and accuracy are the size-weighted aggregates: total of
per-batch mean losses times batch sizes over the total sample count, and
total correct predictions over the total sample count.  Whenever every
batch additionally has one common positive size, these coincide with the
unweighted means of per-batch losses and accuracies (equal sizes are
sufficient for coincidence, not necessary). -/
theorem epoch_metrics_weighted (bs : List BatchStat) :
    epochLoss bs = (bs.map (fun b => b.meanLoss * (b.size : ℚ))).sum /
        (((bs.map (fun b => b.size)).sum : Nat) : ℚ) ∧
    epochAcc bs = 100 * (((bs.map (fun b => b.correct)).sum : Nat) : ℚ) /
        (((bs.map (fun b => b.size)).sum : Nat) : ℚ) ∧
    ∀ n : Nat, 0 < n → (∀ b ∈ bs, b.size = n) →
      epochLoss bs = meanOfBatchLosses bs ∧
      epochAcc bs = meanOfBatchAccs bs := by
  refine ⟨by rw [epochLoss, accumulate_eq], by rw [epochAcc, accumulate_eq],
    ?_⟩
  intro n hn hsz
  by_cases hne : bs = []
  · subst hne
    constructor
    · norm_num [epochLoss, meanOfBatchLosses, accumulate]
    · norm_num [epochAcc, meanOfBatchAccs, accumulate]
  have hsizes : (bs.map (fun b => b.size)).sum = bs.length * n := by
    have hrep : bs.map (fun b => b.size) = List.replicate bs.length n := by
      refine List.eq_replicate_iff.mpr ⟨by simp, ?_⟩
      intro x hx
      obtain ⟨b, hb, rfl⟩ := List.mem_map.mp hx
      exact hsz b hb
    rw [hrep, List.sum_replicate, smul_eq_mul]
  have hn0 : ((n : ℚ)) ≠ 0 := by
    exact_mod_cast Nat.pos_iff_ne_zero.mp hn
  have hlen0 : ((bs.length : ℚ)) ≠ 0 := by
    have : bs.length ≠ 0 := by
      intro h
      exact hne (List.eq_nil_of_length_eq_zero h)
    exact_mod_cast this
  have hlossmap : bs.map (fun b => b.meanLoss * (b.size : ℚ)) =
      bs.map (fun b => b.meanLoss * (n : ℚ)) := by
    refine List.map_congr_left ?_
    intro b hb
    rw [hsz b hb]
  have hcast : ∀ l : List Nat, ((l.sum : Nat) : ℚ) =
      (l.map (fun m : Nat => (m : ℚ))).sum := by
    intro l
    induction l with
    | nil => simp
    | cons x xs ih => simp [ih]
  refine ⟨?_, ?_⟩
  · rw [epochLoss, accumulate_eq, meanOfBatchLosses]
    simp only []
    rw [hsizes, hlossmap, List.sum_map_mul_right]
    push_cast
    field_simp
    ring
  · rw [epochAcc, accumulate_eq, meanOfBatchAccs]
    simp only []
    have haccmap : bs.map batchAcc =
        bs.map (fun b => 100 * (b.correct : ℚ) * (n : ℚ)⁻¹) := by
      refine List.map_congr_left ?_
      intro b hb
      rw [batchAcc, hsz b hb, div_eq_mul_inv]
    rw [hsizes, haccmap, List.sum_map_mul_right, List.sum_map_mul_left]
    rw [hcast (bs.map (fun b => b.correct)), List.map_map]
    simp only [Function.comp_def]
    push_cast
    field_simp
    exact Or.inl (mul_comm _ _)

/-- Witness for the amended C9 theorem at batches of unequal sizes 2 and 4,
where the size-weighted aggregates (loss 7/3, accuracy 250/3) differ from
the unweighted per-batch means (loss 2, accuracy 75): the size-weighted
characterization holds exactly where it rules the unweighted mean out. -/
theorem epoch_metrics_weighted_witness :
    (epochLoss [⟨1, 1, 2⟩, ⟨3, 4, 4⟩] =
      (([⟨1, 1, 2⟩, ⟨3, 4, 4⟩] : List BatchStat).map
        (fun b => b.meanLoss * (b.size : ℚ))).sum /
        (((([⟨1, 1, 2⟩, ⟨3, 4, 4⟩] : List BatchStat).map
          (fun b => b.size)).sum : Nat) : ℚ) ∧
    epochAcc [⟨1, 1, 2⟩, ⟨3, 4, 4⟩] =
      100 * (((([⟨1, 1, 2⟩, ⟨3, 4, 4⟩] : List BatchStat).map
        (fun b => b.correct)).sum : Nat) : ℚ) /
        (((([⟨1, 1, 2⟩, ⟨3, 4, 4⟩] : List BatchStat).map
          (fun b => b.size)).sum : Nat) : ℚ) ∧
    ∀ n : Nat, 0 < n →
      (∀ b ∈ ([⟨1, 1, 2⟩, ⟨3, 4, 4⟩] : List BatchStat), b.size = n) →
      epochLoss [⟨1, 1, 2⟩, ⟨3, 4, 4⟩] =
        meanOfBatchLosses [⟨1, 1, 2⟩, ⟨3, 4, 4⟩] ∧
      epochAcc [⟨1, 1, 2⟩, ⟨3, 4, 4⟩] =
        meanOfBatchAccs [⟨1, 1, 2⟩, ⟨3, 4, 4⟩]) :=
  epoch_metrics_weighted [⟨1, 1, 2⟩, ⟨3, 4, 4⟩]

/-- All batches of the epoch share one size. -/
def allSizesEqual (bs : List BatchStat) : Prop :=
  ∀ a ∈ bs, ∀ b ∈ bs, a.size = b.size

instance : DecidablePred allSizesEqual := fun bs =>
  inferInstanceAs (Decidable (∀ a ∈ bs, ∀ b ∈ bs, a.size = b.size))

/-- C9 counterexample: with batches of unequal sizes 2 and 4 but equal
per-batch loss 1 and equal per-batch accuracy 50%, the size-weighted epoch
metrics the code reports coincide with the unweighted per-batch means even
though the batch sizes differ — refuting the claim that the two coincide
only when all batches have equal size. -/
theorem epoch_metrics_coincide_counterexample :
    epochLoss [⟨1, 1, 2⟩, ⟨1, 2, 4⟩] =
      meanOfBatchLosses [⟨1, 1, 2⟩, ⟨1, 2, 4⟩] ∧
    epochAcc [⟨1, 1, 2⟩, ⟨1, 2, 4⟩] =
      meanOfBatchAccs [⟨1, 1, 2⟩, ⟨1, 2, 4⟩] ∧
    ¬ allSizesEqual [⟨1, 1, 2⟩, ⟨1, 2, 4⟩] := by
  refine ⟨?_, ?_, by decide⟩
  · norm_num [epochLoss, meanOfBatchLosses, accumulate]
  · norm_num [epochAcc, meanOfBatchAccs, accumulate, batchAcc]

end Epoch
